import Mathlib

/-!
# Verification of the ARC evaluation harness

A shallow embedding of `evaluate_deepseek.py`, the ARC grid-puzzle
evaluation harness, together with proofs about its grid codec
(`format_grid` / `parse_model_output`), its scorer (`evaluate_task`),
its prompt builder (`create_prompt`) and its evaluation driver
(`run_evaluation`).

Text is modelled as `List Char`; grids as `List (List Int)` (Python
lists of lists of `int`).  The external model call is modelled as an
oracle producing, per call, either a timeout, an error, or a response
text — the three outcomes `call_model_with_timeout` distinguishes.
-/

namespace ARCEval

/-- Python `str.isspace` on the characters this program can meet:
space, tab, newline, carriage return, vertical tab, form feed. -/
def pyIsSpace (c : Char) : Bool :=
  c = ' ' || c = '\t' || c = '\n' || c = '\r' || c = '\x0b' || c = '\x0c'

/-- Python `any(c.isdigit() for c in line)`. -/
def hasDigit (l : List Char) : Bool :=
  l.any (fun c => c.isDigit)

/-- Python `str(n)` for a natural number. -/
def natStr (n : Nat) : List Char :=
  Nat.toDigits 10 n

/-- Python `str(n)` for an integer. -/
def intStr (n : Int) : List Char :=
  if n < 0 then '-' :: natStr n.natAbs else natStr n.natAbs

/-- Python `sep.join(pieces)` for a one-character separator. -/
def joinWith (sep : Char) : List (List Char) → List Char
  | [] => []
  | [l] => l
  | l :: ls => l ++ sep :: joinWith sep ls

/-- Python `text.split(chr)` for a one-character separator: splitting the
empty text gives one empty piece, and every separator starts a new piece. -/
def splitLines : List Char → List (List Char)
  | [] => [[]]
  | c :: cs =>
    if c = '\n' then [] :: splitLines cs
    else (c :: (splitLines cs).headI) :: (splitLines cs).tail

/-- The line-selection loop of `parse_model_output`: skip lines until one
contains a digit, then keep taking lines while they contain a digit; the
first digit-free line after that ends the scan. -/
def selectLines : List (List Char) → List (List Char)
  | [] => []
  | l :: ls => if hasDigit l then l :: ls.takeWhile hasDigit else selectLines ls

/-- Worker for `pyTokens`: the accumulator holds the pending token,
reversed. -/
def tokensAux : List Char → List Char → List (List Char)
  | [], acc => if acc.isEmpty then [] else [acc.reverse]
  | c :: cs, acc =>
    if pyIsSpace c then
      if acc.isEmpty then tokensAux cs [] else acc.reverse :: tokensAux cs []
    else
      tokensAux cs (c :: acc)

/-- Python `s.split()`: split on runs of whitespace, dropping empty
tokens. -/
def pyTokens (l : List Char) : List (List Char) :=
  tokensAux l []

/-- Python `int(token)` on a token made of decimal digits. -/
def pyInt (t : List Char) : Int :=
  ((t.foldl (fun a c => a * 10 + (c.toNat - 48)) 0 : Nat) : Int)

/-- The per-line cleaning of `parse_model_output`: keep only digits and
whitespace. -/
def cleanLine (l : List Char) : List Char :=
  l.filter (fun c => c.isDigit || pyIsSpace c)

/-- The per-line conversion of `parse_model_output`: clean the line,
split it into tokens, convert each token to an integer. -/
def lineToRow (l : List Char) : List Int :=
  (pyTokens (cleanLine l)).map pyInt

/-- `format_grid`: one line per row, row elements joined by single
spaces, rows joined by single newlines (`'\n'.join(' '.join(...))`). -/
def formatRow (row : List Int) : List Char :=
  joinWith ' ' (row.map intStr)

/-- `format_grid` from the source: `'\n'.join([' '.join(map(str, row)) for
row in grid])`. -/
def format_grid (grid : List (List Int)) : List Char :=
  joinWith '\n' (grid.map formatRow)

/-- `parse_model_output` from the source: split into lines, keep the
first contiguous block of digit-bearing lines, convert each kept line to
a row, drop empty rows.  Token conversion cannot fail (every token the
cleaning step leaves is a nonempty run of digits), so the `except`
branch of the source is unreachable and the function is total. -/
def parse_model_output (output : List Char) : List (List Int) :=
  ((selectLines (splitLines output)).map lineToRow).filter (fun r => !r.isEmpty)

/-- One training example of a task: an (input, output) pair of grids. -/
structure TrainPair where
  input : List (List Int)
  output : List (List Int)
deriving DecidableEq

/-- One held-out test case of a task. -/
structure TestCase where
  input : List (List Int)
  output : List (List Int)
deriving DecidableEq

/-- A loaded task: the `train` and `test` lists of its JSON file. -/
structure Task where
  train : List TrainPair
  test : List TestCase
deriving DecidableEq

/-- `evaluate_task` from the source: `False` if the candidate is empty
(`not model_output`) or the row counts differ; otherwise the zipped rows
must agree in length and contents.  The `task` argument is unused, as in
the source. -/
def evaluate_task (task : Task) (model_output expected_output : List (List Int)) : Bool :=
  if model_output.isEmpty || model_output.length != expected_output.length then false
  else (model_output.zip expected_output).all
    (fun p => p.1.length == p.2.length && p.1 == p.2)


/-- One `f"Example {idx}: ..."` block of the prompt, for an enumerated
training pair. -/
def examplePiece (p : Nat × TrainPair) : List Char :=
  (("Example ").toList) ++ natStr p.1 ++ ((":\nInput Grid:\n").toList)
    ++ format_grid p.2.input ++ (("\n").toList)
    ++ (("Output Grid:\n").toList) ++ format_grid p.2.output ++ (("\n\n").toList)

/-- The fixed preamble of the prompt, up to the training examples. -/
def promptHeader : List Char :=
  (("You are an expert at solving abstract reasoning challenges. Your task is to analyze patterns in grids and generate the correct output grid.\n\n").toList)
    ++ (("Given these training examples:\n\n").toList)

/-- The fixed text of the prompt after the training examples, given the
test input: the query block and the rule block. -/
def promptTail (test_input : List (List Int)) : List Char :=
  (("Now, given this new input grid:\n").toList) ++ format_grid test_input
    ++ (("\n\n").toList)
    ++ (("Rules:\n").toList)
    ++ (("1. Analyze the pattern in the training examples\n").toList)
    ++ (("2. Apply the same pattern to the new input\n").toList)
    ++ (("3. Respond with ONLY the output grid using space-separated numbers and newlines\n").toList)
    ++ (("4. Each number should be between 0-9\n").toList)
    ++ (("5. Ensure the dimensions match the pattern from examples\n\n").toList)
    ++ (("Output Grid:").toList)

/-- `create_prompt` from the source: the preamble, then a loop over
`enumerate(task['train'], 1)` appending one example block per training
pair, then the query block and the rule block. -/
def create_prompt (task : Task) (test_input : List (List Int)) : List Char :=
  ((List.enumFrom 1 task.train).foldl (fun acc p => acc ++ examplePiece p) promptHeader)
    ++ promptTail test_input

/-- The prompt as §4.2 of the specification words it: a fixed preamble,
then, for every training pair in original order under a 1-based label,
its example block, then the query block and the fixed rule block. -/
def promptSpecText (task : Task) (test_input : List (List Int)) : List Char :=
  promptHeader ++ ((List.enumFrom 1 task.train).map examplePiece).flatten
    ++ promptTail test_input

/-- One outcome of the external model call, as `call_model_with_timeout`
distinguishes them: a timeout, an exception, or a successful response. -/
inductive ModelOutcome where
  | timeout : ModelOutcome
  | err : ModelOutcome
  | ok : List Char → ModelOutcome
deriving DecidableEq

/-- `call_model_with_timeout` from the source: the response text on
success, the empty string on `asyncio.TimeoutError` and on any other
exception. -/
def call_model_with_timeout : ModelOutcome → List Char
  | ModelOutcome.timeout => []
  | ModelOutcome.err => []
  | ModelOutcome.ok t => t

/-- One entry of a task result's `details` list. -/
structure Detail where
  test_case : Nat
  correct : Bool
  model_output : List (List Int)
  expected_output : List (List Int)
deriving DecidableEq

/-- The `task_result` dictionary of `run_evaluation`. -/
structure TaskResult where
  task_id : List Char
  correct : Nat
  total : Nat
  details : List Detail
deriving DecidableEq

/-- The `results` dictionary of `run_evaluation`. -/
structure RunResults where
  correct : Nat
  total : Nat
  tasks : List TaskResult
deriving DecidableEq

/-- The scoring tail of one test-case iteration: parse the response,
score it against the expected output, and build the detail record with
the 1-based test-case index. -/
def scoreCase (task : Task) (idx : Nat) (tc : TestCase) (response : List Char) : Detail :=
  let parsed := parse_model_output response
  let is_correct := evaluate_task task parsed tc.output
  ⟨idx + 1, is_correct, parsed, tc.output⟩

/-- One iteration of the test-case loop of `run_evaluation`: build the
prompt, call the model (`resp` is the environment's answer to the call,
given the call index and the prompt), skip the case when the response is
empty, otherwise score it, bump `correct`, and append the detail. -/
def stepCase (task : Task) (resp : Nat → List Char → ModelOutcome)
    (acc : TaskResult) (p : Nat × TestCase) : TaskResult :=
  let response := call_model_with_timeout (resp p.1 (create_prompt task p.2.input))
  if response = [] then acc
  else
    let d := scoreCase task p.1 p.2 response
    { acc with
        correct := acc.correct + (if d.correct then 1 else 0),
        details := acc.details ++ [d] }

/-- The per-task part of `run_evaluation`: fold the test-case loop over
`enumerate(task['test'])`, starting from a result whose `total` is the
declared number of test cases. -/
def runTask (resp : Nat → List Char → ModelOutcome) (stem : List Char) (task : Task) :
    TaskResult :=
  (task.test.enum).foldl (stepCase task resp) ⟨stem, 0, task.test.length, []⟩

/-- One iteration of the task loop of `run_evaluation`: run the task,
append its result, and add its counts to the run totals. -/
def runStep (resp : Nat → Nat → List Char → ModelOutcome)
    (res : RunResults) (p : Nat × (List Char × Task)) : RunResults :=
  let tr := runTask (resp p.1) p.2.1 p.2.2
  { res with
      tasks := res.tasks ++ [tr],
      total := res.total + tr.total,
      correct := res.correct + tr.correct }

/-- The `eval_files` truncation of `run_evaluation`: Python
`if num_tasks: eval_files = eval_files[:num_tasks]`, where both `None`
and `0` are falsy and leave the list whole. -/
def selectFiles (num_tasks : Option Nat) (files : List (List Char × Task)) :
    List (List Char × Task) :=
  match num_tasks with
  | some n => if n ≠ 0 then files.take n else files
  | none => files

/-- `run_evaluation` from the source, over an abstract environment
`resp` (task index → call index → prompt → model outcome) and a
discovered file list of (stem, task) pairs: truncate the file list,
then fold the task loop from zeroed totals. -/
def run_evaluation (resp : Nat → Nat → List Char → ModelOutcome)
    (files : List (List Char × Task)) (num_tasks : Option Nat) : RunResults :=
  ((selectFiles num_tasks files).enum).foldl (runStep resp) ⟨0, 0, []⟩

/-- The details produced by the test-case loop: one `scoreCase` record
per enumerated test case whose model response is nonempty, in order. -/
def respondedDetails (resp : Nat → List Char → ModelOutcome) (task : Task) :
    List (Nat × TestCase) → List Detail
  | [] => []
  | p :: ps =>
    let response := call_model_with_timeout (resp p.1 (create_prompt task p.2.input))
    if response = [] then respondedDetails resp task ps
    else scoreCase task p.1 p.2 response :: respondedDetails resp task ps

/-- The per-enumerated-file task run inside the task loop. -/
def runTaskOf (resp : Nat → Nat → List Char → ModelOutcome)
    (p : Nat × (List Char × Task)) : TaskResult :=
  runTask (resp p.1) p.2.1 p.2.2

/-- A model environment whose every call times out. -/
def respTimeout : Nat → List Char → ModelOutcome :=
  fun _ _ => ModelOutcome.timeout

/-- A model environment whose first call (index 0) times out and whose
later calls answer with the text `2`. -/
def respSkipFirst : Nat → List Char → ModelOutcome :=
  fun j _ => if j = 0 then ModelOutcome.timeout else ModelOutcome.ok (("2").toList)

/-- A run-level model environment whose every call times out. -/
def respRunTimeout : Nat → Nat → List Char → ModelOutcome :=
  fun _ _ _ => ModelOutcome.timeout

/-- A one-test-case task used by concrete checks. -/
def taskOne : Task :=
  ⟨[], [⟨[[1]], [[1]]⟩]⟩

/-- A two-test-case task used by concrete checks. -/
def taskTwo : Task :=
  ⟨[], [⟨[[1]], [[1]]⟩, ⟨[[2]], [[2]]⟩]⟩

/-- A two-file discovery list used by concrete checks. -/
def filesTwo : List (List Char × Task) :=
  [((("a").toList), ⟨[], []⟩), ((("b").toList), ⟨[], []⟩)]

/-! ## Lemmas about line splitting and joining -/

theorem splitLines_ne_nil (s : List Char) : splitLines s ≠ [] := by
  cases s with
  | nil => simp [splitLines]
  | cons c cs =>
    by_cases h : c = '\n' <;> simp [splitLines, h]

theorem splitLines_no_nl {s : List Char} (h : '\n' ∉ s) : splitLines s = [s] := by
  induction s with
  | nil => rfl
  | cons c cs ih =>
    have hc : c ≠ '\n' := fun hc => h (hc ▸ List.mem_cons_self c cs)
    have hcs : '\n' ∉ cs := fun hm => h (List.mem_cons_of_mem c hm)
    simp [splitLines, hc, ih hcs]

theorem splitLines_append {l : List Char} (h : '\n' ∉ l) (t : List Char) :
    splitLines (l ++ '\n' :: t) = l :: splitLines t := by
  induction l with
  | nil => simp [splitLines]
  | cons c l' ih =>
    have hc : c ≠ '\n' := fun hc => h (hc ▸ List.mem_cons_self c l')
    have hl' : '\n' ∉ l' := fun hm => h (List.mem_cons_of_mem c hm)
    simp [splitLines, hc, ih hl']

theorem splitLines_joinWith {ls : List (List Char)}
    (h : ∀ l ∈ ls, '\n' ∉ l) (hne : ls ≠ []) :
    splitLines (joinWith '\n' ls) = ls := by
  induction ls with
  | nil => exact absurd rfl hne
  | cons l ls ih =>
    cases ls with
    | nil => exact splitLines_no_nl (h l (List.mem_cons_self l []))
    | cons l' ls' =>
      have hl : '\n' ∉ l := h l (List.mem_cons_self _ _)
      have hrest : ∀ x ∈ l' :: ls', '\n' ∉ x := fun x hx =>
        h x (List.mem_cons_of_mem l hx)
      calc splitLines (joinWith '\n' (l :: l' :: ls'))
          = splitLines (l ++ '\n' :: joinWith '\n' (l' :: ls')) := rfl
        _ = l :: splitLines (joinWith '\n' (l' :: ls')) := splitLines_append hl _
        _ = l :: l' :: ls' := by rw [ih hrest (by simp)]

theorem mem_splitLines {s l : List Char} (hl : l ∈ splitLines s) {c : Char}
    (hc : c ∈ l) : c ∈ s := by
  induction s generalizing l with
  | nil =>
    have : l = [] := by simpa [splitLines] using hl
    subst this; simp at hc
  | cons a cs ih =>
    by_cases ha : a = '\n'
    · have heq : splitLines (a :: cs) = [] :: splitLines cs := by
        simp [splitLines, ha]
      rw [heq] at hl
      cases List.mem_cons.mp hl with
      | inl h => subst h; simp at hc
      | inr h => exact List.mem_cons_of_mem a (ih h hc)
    · obtain ⟨m, ms, hm⟩ : ∃ m ms, splitLines cs = m :: ms := by
        cases h' : splitLines cs with
        | nil => exact absurd h' (splitLines_ne_nil cs)
        | cons m ms => exact ⟨m, ms, rfl⟩
      have heq : splitLines (a :: cs) = (a :: m) :: ms := by
        simp [splitLines, ha, hm]
      rw [heq] at hl
      cases List.mem_cons.mp hl with
      | inl h =>
        subst h
        cases List.mem_cons.mp hc with
        | inl h3 => exact h3 ▸ List.mem_cons_self a cs
        | inr h3 =>
          exact List.mem_cons_of_mem a (ih (hm ▸ List.mem_cons_self m ms) h3)
      | inr h =>
        exact List.mem_cons_of_mem a (ih (hm ▸ List.mem_cons_of_mem m h) hc)

theorem mem_joinWith {sep : Char} {ls : List (List Char)} {c : Char}
    (h : c ∈ joinWith sep ls) : c = sep ∨ ∃ l ∈ ls, c ∈ l := by
  induction ls with
  | nil => simp [joinWith] at h
  | cons l ls ih =>
    cases ls with
    | nil =>
      right; exact ⟨l, List.mem_cons_self _ _, h⟩
    | cons l' ls' =>
      rcases List.mem_append.mp h with h1 | h2
      · right; exact ⟨l, List.mem_cons_self _ _, h1⟩
      · rcases List.mem_cons.mp h2 with h3 | h4
        · left; exact h3
        · rcases ih h4 with h5 | ⟨x, hx, hcx⟩
          · left; exact h5
          · right; exact ⟨x, List.mem_cons_of_mem l hx, hcx⟩

theorem mem_joinWith_head {sep : Char} {x : List Char} (xs : List (List Char))
    {c : Char} (h : c ∈ x) : c ∈ joinWith sep (x :: xs) := by
  cases xs with
  | nil => exact h
  | cons y ys => exact List.mem_append.mpr (Or.inl h)

/-! ## Lemmas about takeWhile and line selection -/

theorem takeWhile_append_all {p : List Char → Bool} {xs : List (List Char)}
    (h : ∀ x ∈ xs, p x = true) (ys : List (List Char)) :
    (xs ++ ys).takeWhile p = xs ++ ys.takeWhile p := by
  induction xs with
  | nil => simp
  | cons x xs ih =>
    have hx := h x (List.mem_cons_self _ _)
    simp only [List.cons_append, List.takeWhile_cons, hx, if_pos]
    rw [ih (fun a ha => h a (List.mem_cons_of_mem x ha))]

theorem takeWhile_all {p : List Char → Bool} {xs : List (List Char)}
    (h : ∀ x ∈ xs, p x = true) : xs.takeWhile p = xs := by
  have := takeWhile_append_all h []
  simpa using this

theorem selectLines_skip {pre : List (List Char)}
    (h : ∀ l ∈ pre, hasDigit l = false) (rest : List (List Char)) :
    selectLines (pre ++ rest) = selectLines rest := by
  induction pre with
  | nil => simp
  | cons l pre ih =>
    have hl := h l (List.mem_cons_self _ _)
    simp only [List.cons_append, selectLines, hl, Bool.false_eq_true, if_neg,
      Bool.not_eq_true]
    exact ih (fun a ha => h a (List.mem_cons_of_mem l ha))

theorem selectLines_nil {ls : List (List Char)}
    (h : ∀ l ∈ ls, hasDigit l = false) : selectLines ls = [] := by
  have := selectLines_skip h []
  simpa using this

theorem selectLines_block {block : List (List Char)}
    (hblock : ∀ l ∈ block, hasDigit l = true) (hne : block ≠ [])
    {post : List (List Char)} (hpost : ∀ l ∈ post.take 1, hasDigit l = false) :
    selectLines (block ++ post) = block := by
  cases block with
  | nil => exact absurd rfl hne
  | cons b bs =>
    have hb := hblock b (List.mem_cons_self _ _)
    have hbs : ∀ l ∈ bs, hasDigit l = true :=
      fun l hl => hblock l (List.mem_cons_of_mem b hl)
    have hpost' : post.takeWhile hasDigit = [] := by
      cases post with
      | nil => rfl
      | cons q qs =>
        have hq := hpost q (by simp)
        simp [List.takeWhile_cons, hq]
    have htake : List.takeWhile hasDigit (bs ++ post) = bs := by
      rw [takeWhile_append_all hbs, hpost', List.append_nil]
    simp only [List.cons_append, selectLines, hb, if_pos, List.append_eq, htake]

/-! ## Lemmas about tokenisation and digit rendering -/

theorem tokensAux_nonspace {t : List Char} (ht : ∀ c ∈ t, pyIsSpace c = false)
    (more acc : List Char) :
    tokensAux (t ++ more) acc = tokensAux more (t.reverse ++ acc) := by
  induction t generalizing acc with
  | nil => simp
  | cons c t' ih =>
    have hc := ht c (List.mem_cons_self _ _)
    have ht' : ∀ x ∈ t', pyIsSpace x = false :=
      fun x hx => ht x (List.mem_cons_of_mem c hx)
    have step : tokensAux ((c :: t') ++ more) acc = tokensAux (t' ++ more) (c :: acc) := by
      simp [tokensAux, hc]
    rw [step, ih ht' (c :: acc)]
    simp

theorem pyTokens_joinWith {ts : List (List Char)}
    (h : ∀ t ∈ ts, t ≠ [] ∧ ∀ c ∈ t, pyIsSpace c = false) :
    pyTokens (joinWith ' ' ts) = ts := by
  induction ts with
  | nil => rfl
  | cons t ts ih =>
    obtain ⟨htne, htns⟩ := h t (List.mem_cons_self _ _)
    have hrev : t.reverse.isEmpty = false := by
      cases t with
      | nil => exact absurd rfl htne
      | cons a as => simp
    cases ts with
    | nil =>
      show tokensAux t [] = [t]
      have := tokensAux_nonspace htns [] []
      rw [List.append_nil] at this
      rw [this]
      simp [tokensAux, hrev]
    | cons t' ts' =>
      have hrest : ∀ x ∈ t' :: ts', x ≠ [] ∧ ∀ c ∈ x, pyIsSpace c = false :=
        fun x hx => h x (List.mem_cons_of_mem t hx)
      show tokensAux (t ++ ' ' :: joinWith ' ' (t' :: ts')) [] = t :: t' :: ts'
      rw [tokensAux_nonspace htns, List.append_nil]
      show tokensAux (' ' :: joinWith ' ' (t' :: ts')) t.reverse = t :: t' :: ts'
      have hsp : pyIsSpace ' ' = true := by decide
      have step : tokensAux (' ' :: joinWith ' ' (t' :: ts')) t.reverse
          = t :: tokensAux (joinWith ' ' (t' :: ts')) [] := by
        simp [tokensAux, hsp, hrev]
      rw [step]
      show t :: pyTokens (joinWith ' ' (t' :: ts')) = t :: t' :: ts'
      rw [ih hrest]

theorem isDigit_ne_nl {c : Char} (h : c.isDigit = true) : c ≠ '\n' := by
  intro hc; subst hc; exact absurd h (by decide)

theorem digit_intStr {v : Int} (h0 : 0 ≤ v) (h9 : v ≤ 9) :
    intStr v ≠ [] ∧ (∀ c ∈ intStr v, c.isDigit = true ∧ pyIsSpace c = false) ∧
      pyInt (intStr v) = v := by
  interval_cases v <;> exact ⟨by decide, by decide, by decide⟩

theorem formatRow_chars {row : List Int} (h : ∀ v ∈ row, 0 ≤ v ∧ v ≤ 9)
    {c : Char} (hc : c ∈ formatRow row) : c = ' ' ∨ c.isDigit = true := by
  rcases mem_joinWith hc with h1 | ⟨l, hl, hcl⟩
  · exact Or.inl h1
  · obtain ⟨v, hv, rfl⟩ := List.mem_map.mp hl
    obtain ⟨hv0, hv9⟩ := h v hv
    exact Or.inr ((digit_intStr hv0 hv9).2.1 c hcl).1

theorem formatRow_no_nl {row : List Int} (h : ∀ v ∈ row, 0 ≤ v ∧ v ≤ 9) :
    '\n' ∉ formatRow row := by
  intro hmem
  rcases formatRow_chars h hmem with h1 | h2
  · exact absurd h1 (by decide)
  · exact absurd h2 (by decide)

theorem formatRow_hasDigit {row : List Int} (hne : row ≠ [])
    (h : ∀ v ∈ row, 0 ≤ v ∧ v ≤ 9) : hasDigit (formatRow row) = true := by
  cases row with
  | nil => exact absurd rfl hne
  | cons v vs =>
    obtain ⟨hv0, hv9⟩ := h v (List.mem_cons_self _ _)
    obtain ⟨hne', hchars, _⟩ := digit_intStr hv0 hv9
    cases hs : intStr v with
    | nil => exact absurd hs hne'
    | cons c cs =>
      have hcmem : c ∈ formatRow (v :: vs) := by
        apply mem_joinWith_head
        exact hs ▸ List.mem_cons_self c cs
      have hcdig : c.isDigit = true := (hchars c (hs ▸ List.mem_cons_self c cs)).1
      exact List.any_eq_true.mpr ⟨c, hcmem, hcdig⟩

theorem lineToRow_formatRow {row : List Int}
    (h : ∀ v ∈ row, 0 ≤ v ∧ v ≤ 9) : lineToRow (formatRow row) = row := by
  have hclean : cleanLine (formatRow row) = formatRow row := by
    apply List.filter_eq_self.mpr
    intro c hc
    rcases formatRow_chars h hc with h1 | h2
    · subst h1; decide
    · simp [h2]
  have htok : pyTokens (formatRow row) = row.map intStr := by
    apply pyTokens_joinWith
    intro t ht
    obtain ⟨v, hv, rfl⟩ := List.mem_map.mp ht
    obtain ⟨hv0, hv9⟩ := h v hv
    obtain ⟨hne', hchars, _⟩ := digit_intStr hv0 hv9
    exact ⟨hne', fun c hc => (hchars c hc).2⟩
  unfold lineToRow
  rw [hclean, htok, List.map_map]
  have : ∀ v ∈ row, (pyInt ∘ intStr) v = v := by
    intro v hv
    obtain ⟨hv0, hv9⟩ := h v hv
    exact (digit_intStr hv0 hv9).2.2
  calc row.map (pyInt ∘ intStr) = row.map id := List.map_congr_left this
    _ = row := List.map_id row

/-! ## The grid codec: round trip, totality, block capture, value range -/

/-- Claim C1 (amended): for every grid with uniform row lengths, single
digit values 0-9 and no empty row, parsing the formatted text yields the
grid back: `parse_model_output (format_grid g) = g`.  (The claim as
frozen, without the no-empty-row condition, fails at `[[]]`; see the
counterexample.) -/
theorem parse_format_roundtrip (g : List (List Int))
    (huniform : ∀ r ∈ g, ∀ r2 ∈ g, r.length = r2.length)
    (hvals : ∀ r ∈ g, ∀ v ∈ r, 0 ≤ v ∧ v ≤ 9)
    (hrows : ∀ r ∈ g, r ≠ []) :
    parse_model_output (format_grid g) = g := by
  cases g with
  | nil => rfl
  | cons r rs =>
    have hnl : ∀ l ∈ (r :: rs).map formatRow, '\n' ∉ l := by
      intro l hl
      obtain ⟨row, hrow, rfl⟩ := List.mem_map.mp hl
      exact formatRow_no_nl (hvals row hrow)
    have hsplit : splitLines (format_grid (r :: rs)) = (r :: rs).map formatRow :=
      splitLines_joinWith hnl (by simp)
    have hdig : ∀ l ∈ (r :: rs).map formatRow, hasDigit l = true := by
      intro l hl
      obtain ⟨row, hrow, rfl⟩ := List.mem_map.mp hl
      exact formatRow_hasDigit (hrows row hrow) (hvals row hrow)
    have hsel : selectLines ((r :: rs).map formatRow) = (r :: rs).map formatRow := by
      rw [List.map_cons]
      have h1 : hasDigit (formatRow r) = true := hdig _ (by simp)
      simp only [selectLines, h1, if_pos]
      rw [takeWhile_all (fun x hx => hdig x (by
        rw [List.map_cons]; exact List.mem_cons_of_mem _ hx))]
    unfold parse_model_output
    rw [hsplit, hsel, List.map_map]
    have hmap : (r :: rs).map (lineToRow ∘ formatRow) = r :: rs := by
      calc (r :: rs).map (lineToRow ∘ formatRow) = (r :: rs).map id :=
            List.map_congr_left (fun row hrow => lineToRow_formatRow (hvals row hrow))
        _ = r :: rs := List.map_id _
    rw [hmap]
    apply List.filter_eq_self.mpr
    intro a ha
    cases a with
    | nil => exact absurd rfl (hrows [] ha)
    | cons x xs => rfl

/-- Claim C1 counterexample: the grid `[[]]` has uniform row lengths and
only digit values (vacuously), yet formatting it gives the empty text,
which parses back to `[]`, not `[[]]`. -/
theorem parse_format_roundtrip_cx :
    (∀ r ∈ ([[]] : List (List Int)), ∀ r2 ∈ ([[]] : List (List Int)),
        r.length = r2.length) ∧
    (∀ r ∈ ([[]] : List (List Int)), ∀ v ∈ r, 0 ≤ v ∧ v ≤ 9) ∧
    parse_model_output (format_grid ([[]] : List (List Int))) ≠ [[]] :=
  ⟨by decide, by decide, by decide⟩

/-- Claim C1 witness: the round trip at the concrete grid
`[[1, 0], [0, 1]]`. -/
theorem parse_format_roundtrip_witness :
    parse_model_output (format_grid ([[1, 0], [0, 1]] : List (List Int)))
      = [[1, 0], [0, 1]] :=
  parse_format_roundtrip [[1, 0], [0, 1]] (by decide) (by decide) (by decide)

/-- Claim C2: decoding is total by construction (the embedding is a total
function, and every token the cleaning step leaves is a nonempty digit
run, so the source's `except` branch is unreachable); and an input with
no digit anywhere parses to the empty grid. -/
theorem parse_no_digits (s : List Char) (h : ∀ c ∈ s, c.isDigit = false) :
    parse_model_output s = [] := by
  have hlines : ∀ l ∈ splitLines s, hasDigit l = false := by
    intro l hl
    rw [hasDigit, ← Bool.not_eq_true, List.any_eq_true]
    rintro ⟨c, hc, hcd⟩
    rw [h c (mem_splitLines hl hc)] at hcd
    exact absurd hcd (by decide)
  unfold parse_model_output
  rw [selectLines_nil hlines]
  rfl

/-- Claim C2 witness: a digit-free refusal text parses to the empty
grid. -/
theorem parse_no_digits_witness :
    parse_model_output (("I cannot solve this puzzle.").toList) = [] :=
  parse_no_digits (("I cannot solve this puzzle.").toList) (by decide)

/-- Claim C4: when the lines of the input split as digit-free prose,
then a nonempty contiguous block of digit-bearing lines, then a rest
whose first line is digit-free, decoding keeps exactly the block: the
grid is the block's lines converted to rows (later digit lines, after
the interruption, are ignored). -/
theorem parse_first_contiguous_block (s : List Char)
    (pre block post : List (List Char))
    (hs : splitLines s = pre ++ block ++ post)
    (hpre : ∀ l ∈ pre, hasDigit l = false)
    (hblock : ∀ l ∈ block, hasDigit l = true)
    (hne : block ≠ [])
    (hpost : ∀ l ∈ post.take 1, hasDigit l = false) :
    parse_model_output s = (block.map lineToRow).filter (fun r => !r.isEmpty) := by
  unfold parse_model_output
  rw [hs, List.append_assoc, selectLines_skip hpre, selectLines_block hblock hne hpost]

/-- Claim C4 witness: prose before, a two-line digit block, an
interrupting prose line, and a later digit line `5 6` that is ignored. -/
theorem parse_first_contiguous_block_witness :
    parse_model_output (("The output grid is:\n1 2\n3 4\nThat is the pattern.\n5 6").toList)
        = (([("1 2").toList, ("3 4").toList]).map lineToRow).filter
            (fun r => !r.isEmpty) ∧
    parse_model_output (("The output grid is:\n1 2\n3 4\nThat is the pattern.\n5 6").toList)
        = [[1, 2], [3, 4]] :=
  ⟨parse_first_contiguous_block
      (("The output grid is:\n1 2\n3 4\nThat is the pattern.\n5 6").toList)
      [("The output grid is:").toList]
      [("1 2").toList, ("3 4").toList]
      [("That is the pattern.").toList, ("5 6").toList]
      (by decide) (by decide) (by decide) (by decide) (by decide),
    by decide⟩

/-- Claim C9 (amended): every integer in a parsed grid is nonnegative.
(The frozen claim's range `[0, 9]` fails: stripping non-digit characters
can concatenate digits into multi-digit values; see the
counterexample.) -/
theorem parse_values_nonneg (s : List Char) :
    ∀ r ∈ parse_model_output s, ∀ v ∈ r, 0 ≤ v := by
  intro r hr v hv
  unfold parse_model_output at hr
  have hr' := List.mem_of_mem_filter hr
  obtain ⟨l, _, rfl⟩ := List.mem_map.mp hr'
  unfold lineToRow at hv
  obtain ⟨t, _, rfl⟩ := List.mem_map.mp hv
  unfold pyInt
  exact Int.natCast_nonneg _

/-- Claim C9 witness: nonnegativity applied at the concrete parse of
`"1,2"`, whose grid is `[[12]]`. -/
theorem parse_values_nonneg_witness : (0 : Int) ≤ 12 :=
  parse_values_nonneg (("1,2").toList) [12] (by decide) 12 (by decide)

/-- Claim C9 counterexample: `"1,2"` parses to `[[12]]` — the comma is
stripped, the digits concatenate, and the value 12 is outside
`[0, 9]`. -/
theorem parse_values_cx :
    parse_model_output (("1,2").toList) = [[12]] ∧ ¬ ((12 : Int) ≤ 9) := by
  decide

/-! ## The scorer -/

theorem zip_all_rows {m e : List (List Int)} (hlen : m.length = e.length) :
    ((m.zip e).all (fun p => p.1.length == p.2.length && p.1 == p.2)) = true ↔ m = e := by
  induction m generalizing e with
  | nil =>
    cases e with
    | nil => simp
    | cons b e => simp at hlen
  | cons a m ih =>
    cases e with
    | nil => simp at hlen
    | cons b e =>
      have hlen' : m.length = e.length := by simpa using hlen
      simp only [List.zip_cons_cons, List.all_cons, Bool.and_eq_true, beq_iff_eq,
        ih hlen', List.cons.injEq]
      constructor
      · rintro ⟨⟨-, h2⟩, h3⟩; exact ⟨h2, h3⟩
      · rintro ⟨h2, h3⟩; exact ⟨⟨by rw [h2], h2⟩, h3⟩

theorem evaluate_task_eq_true_iff (t : Task) (m e : List (List Int)) :
    evaluate_task t m e = true ↔ m ≠ [] ∧ m = e := by
  unfold evaluate_task
  cases m with
  | nil => simp
  | cons a m' =>
    by_cases h2 : (a :: m').length = e.length
    · have hcond : ((a :: m').isEmpty || (a :: m').length != e.length) = false := by
        simp [h2]
      rw [hcond]
      simp only [Bool.false_eq_true, if_false, zip_all_rows h2, ne_eq,
        List.cons_ne_nil, not_false_eq_true, true_and]
    · have hcond : ((a :: m').isEmpty || (a :: m').length != e.length) = true := by
        have hbne : ((a :: m').length != e.length) = true := by
          simpa [bne_iff_ne] using h2
        rw [hbne, Bool.or_true]
      rw [hcond]
      simp only [if_true]
      constructor
      · intro h; exact absurd h (by decide)
      · rintro ⟨-, rfl⟩; exact absurd rfl h2

/-- Claim C3 (amended): the scorer accepts exactly the nonempty
candidates that are structurally equal to the expected grid —
`evaluate_task` returns `true` iff the candidate is nonempty and equals
the expected grid (row count, row lengths and elements all agree; no
partial credit).  (The claim as frozen — true exactly on full structural
agreement — fails at the pair of empty grids; see the counterexample.) -/
theorem evaluate_task_full_equality (t : Task) (candidate expected : List (List Int)) :
    evaluate_task t candidate expected = true ↔ candidate ≠ [] ∧ candidate = expected :=
  evaluate_task_eq_true_iff t candidate expected

/-- Claim C3 counterexample: the empty candidate and the empty expected
grid agree in row count, row lengths and elements, yet the scorer
returns `false` — full structural agreement is not equivalent to a
`true` verdict. -/
theorem evaluate_task_full_equality_cx :
    ¬ (evaluate_task ⟨[], []⟩ ([] : List (List Int)) ([] : List (List Int)) = true
        ↔ ([] : List (List Int)) = ([] : List (List Int))) := by
  decide

/-- Claim C8 (amended): the scorer is reflexive on nonempty grids:
`evaluate_task t g g = true` for every grid `g ≠ []`.  (The frozen
claim includes the empty grid, where the scorer returns `false`; see
the counterexample.) -/
theorem evaluate_task_refl (t : Task) (g : List (List Int)) (h : g ≠ []) :
    evaluate_task t g g = true :=
  (evaluate_task_eq_true_iff t g g).mpr ⟨h, rfl⟩

/-- Claim C8 counterexample: on the empty grid the scorer is not
reflexive — `evaluate_task` on `([], [])` returns `false` (Python
`not model_output` fires). -/
theorem evaluate_task_refl_cx :
    evaluate_task ⟨[], []⟩ ([] : List (List Int)) ([] : List (List Int)) = false := by
  decide

/-- Claim C8 witness: reflexivity at the concrete grid `[[3, 1], [4, 1]]`. -/
theorem evaluate_task_refl_witness :
    evaluate_task ⟨[], []⟩ ([[3, 1], [4, 1]] : List (List Int)) [[3, 1], [4, 1]] = true :=
  evaluate_task_refl ⟨[], []⟩ [[3, 1], [4, 1]] (by decide)

/-! ## The prompt builder -/

theorem foldl_append_pieces {α : Type} (f : α → List Char) (l : List α)
    (init : List Char) :
    l.foldl (fun acc p => acc ++ f p) init = init ++ (l.map f).flatten := by
  induction l generalizing init with
  | nil => simp
  | cons p ps ih => simp [ih, List.append_assoc]

/-- Claim C7: the prompt is a pure function of the task and the test
input — the embedding has no other inputs, so two calls on the same
arguments give byte-identical text — and it equals the specification
shape: the fixed preamble, then one example block per training pair, in
original order under 1-based labels, then the query block and the fixed
rule block. -/
theorem create_prompt_deterministic (task : Task) (test_input : List (List Int)) :
    create_prompt task test_input = promptSpecText task test_input := by
  unfold create_prompt promptSpecText
  rw [foldl_append_pieces]

/-! ## The evaluation driver -/

theorem foldl_stepCase (task : Task) (resp : Nat → List Char → ModelOutcome)
    (l : List (Nat × TestCase)) (acc : TaskResult) :
    l.foldl (stepCase task resp) acc =
      ⟨acc.task_id,
       acc.correct + (respondedDetails resp task l).countP (fun d => d.correct),
       acc.total,
       acc.details ++ respondedDetails resp task l⟩ := by
  induction l generalizing acc with
  | nil =>
    cases acc
    simp [respondedDetails]
  | cons p ps ih =>
    show ps.foldl (stepCase task resp) (stepCase task resp acc p) = _
    by_cases hr : call_model_with_timeout (resp p.1 (create_prompt task p.2.input)) = []
    · have hstep : stepCase task resp acc p = acc := by
        simp [stepCase, hr]
      have hdet : respondedDetails resp task (p :: ps) = respondedDetails resp task ps := by
        simp [respondedDetails, hr]
      rw [hstep, ih acc, hdet]
    · have hstep : stepCase task resp acc p =
        ⟨acc.task_id,
         acc.correct + (if (scoreCase task p.1 p.2
            (call_model_with_timeout (resp p.1 (create_prompt task p.2.input)))).correct
            then 1 else 0),
         acc.total,
         acc.details ++ [scoreCase task p.1 p.2
            (call_model_with_timeout (resp p.1 (create_prompt task p.2.input)))]⟩ := by
        simp [stepCase, hr]
      have hdet : respondedDetails resp task (p :: ps) =
          scoreCase task p.1 p.2
              (call_model_with_timeout (resp p.1 (create_prompt task p.2.input)))
            :: respondedDetails resp task ps := by
        simp [respondedDetails, hr]
      rw [hstep, ih, hdet]
      simp only [List.countP_cons, List.append_assoc, List.singleton_append,
        TaskResult.mk.injEq, true_and, and_true]
      split <;> omega

theorem runTask_eq (resp : Nat → List Char → ModelOutcome) (stem : List Char)
    (task : Task) :
    runTask resp stem task =
      ⟨stem,
       (respondedDetails resp task task.test.enum).countP (fun d => d.correct),
       task.test.length,
       respondedDetails resp task task.test.enum⟩ := by
  unfold runTask
  rw [foldl_stepCase]
  simp

theorem respondedDetails_length_le (resp : Nat → List Char → ModelOutcome)
    (task : Task) (l : List (Nat × TestCase)) :
    (respondedDetails resp task l).length ≤ l.length := by
  induction l with
  | nil => simp [respondedDetails]
  | cons p ps ih =>
    by_cases hr : call_model_with_timeout (resp p.1 (create_prompt task p.2.input)) = []
    · simp only [respondedDetails, hr, if_pos]
      exact Nat.le_succ_of_le ih
    · simp only [respondedDetails, hr, if_neg, List.length_cons]
      exact Nat.succ_le_succ ih

theorem mem_respondedDetails {resp : Nat → List Char → ModelOutcome} {task : Task}
    {l : List (Nat × TestCase)} {d : Detail} (hd : d ∈ respondedDetails resp task l) :
    ∃ p ∈ l,
      call_model_with_timeout (resp p.1 (create_prompt task p.2.input)) ≠ [] ∧
      d = scoreCase task p.1 p.2
            (call_model_with_timeout (resp p.1 (create_prompt task p.2.input))) := by
  induction l with
  | nil => simp [respondedDetails] at hd
  | cons p ps ih =>
    by_cases hr : call_model_with_timeout (resp p.1 (create_prompt task p.2.input)) = []
    · rw [show respondedDetails resp task (p :: ps) = respondedDetails resp task ps from
        by simp [respondedDetails, hr]] at hd
      obtain ⟨q, hq, h1, h2⟩ := ih hd
      exact ⟨q, List.mem_cons_of_mem p hq, h1, h2⟩
    · rw [show respondedDetails resp task (p :: ps) =
          scoreCase task p.1 p.2
              (call_model_with_timeout (resp p.1 (create_prompt task p.2.input)))
            :: respondedDetails resp task ps from by simp [respondedDetails, hr]] at hd
      cases List.mem_cons.mp hd with
      | inl h => exact ⟨p, List.mem_cons_self _ _, hr, h⟩
      | inr h =>
        obtain ⟨q, hq, h1, h2⟩ := ih h
        exact ⟨q, List.mem_cons_of_mem p hq, h1, h2⟩

theorem runTask_correct_le (resp : Nat → List Char → ModelOutcome) (stem : List Char)
    (task : Task) :
    (runTask resp stem task).correct ≤ (runTask resp stem task).total := by
  rw [runTask_eq]
  calc (respondedDetails resp task task.test.enum).countP (fun d => d.correct)
      ≤ (respondedDetails resp task task.test.enum).length :=
        List.countP_le_length _
    _ ≤ task.test.enum.length := respondedDetails_length_le resp task _
    _ = task.test.length := List.enum_length

/-- Claim C5 (amended): when every model call for test-case index `i`
times out or errors, that test case is skipped: no detail record with
its 1-based index is appended, and `correct` counts only the appended
details — but the case is still included in the task's `total`, which
always equals the declared number of test cases.  (The frozen claim
says the skipped case is excluded from the total count; the code sets
the total to the declared test-case count up front, so a skipped case
is still counted there — see the counterexample.) -/
theorem model_failure_skips (resp : Nat → List Char → ModelOutcome) (stem : List Char)
    (task : Task) (i : Nat)
    (hi : ∀ prompt, resp i prompt = ModelOutcome.timeout ∨ resp i prompt = ModelOutcome.err) :
    ((runTask resp stem task).details.all (fun d => d.test_case != i + 1)) = true ∧
    (runTask resp stem task).total = task.test.length ∧
    (runTask resp stem task).correct
      = (runTask resp stem task).details.countP (fun d => d.correct) := by
  rw [runTask_eq]
  refine ⟨?_, rfl, rfl⟩
  apply List.all_eq_true.mpr
  intro d hd
  obtain ⟨p, hp, hne, rfl⟩ := mem_respondedDetails hd
  have hidx : p.1 ≠ i := by
    intro h
    apply hne
    rcases hi (create_prompt task p.2.input) with h1 | h1 <;> rw [h, h1] <;> rfl
  have htc : (scoreCase task p.1 p.2
      (call_model_with_timeout (resp p.1 (create_prompt task p.2.input)))).test_case
      = p.1 + 1 := rfl
  rw [htc, bne_iff_ne]
  omega

/-- Claim C5 counterexample: with a single test case whose model call
times out, no detail is recorded, yet the task total is 1, not 0 — the
skipped case is not excluded from the total count. -/
theorem model_failure_skips_cx :
    (runTask respTimeout (("t1").toList) taskOne).details = [] ∧
    (runTask respTimeout (("t1").toList) taskOne).total ≠ 0 := by
  decide

/-- Claim C5 witness: a two-case task whose first call times out and
whose second call responds; the skip statement at index 0. -/
theorem model_failure_skips_witness :
    ((runTask respSkipFirst (("t2").toList) taskTwo).details.all
        (fun d => d.test_case != 0 + 1)) = true ∧
    (runTask respSkipFirst (("t2").toList) taskTwo).total = taskTwo.test.length ∧
    (runTask respSkipFirst (("t2").toList) taskTwo).correct
      = (runTask respSkipFirst (("t2").toList) taskTwo).details.countP
          (fun d => d.correct) :=
  model_failure_skips respSkipFirst (("t2").toList) taskTwo 0
    (fun _ => Or.inl rfl)

theorem foldl_runStep (resp : Nat → Nat → List Char → ModelOutcome)
    (l : List (Nat × (List Char × Task))) (acc : RunResults) :
    l.foldl (runStep resp) acc =
      ⟨acc.correct + (l.map (fun p => (runTaskOf resp p).correct)).sum,
       acc.total + (l.map (fun p => (runTaskOf resp p).total)).sum,
       acc.tasks ++ l.map (runTaskOf resp)⟩ := by
  induction l generalizing acc with
  | nil =>
    cases acc
    simp
  | cons p ps ih =>
    show ps.foldl (runStep resp) (runStep resp acc p) = _
    have hstep : runStep resp acc p =
        ⟨acc.correct + (runTaskOf resp p).correct,
         acc.total + (runTaskOf resp p).total,
         acc.tasks ++ [runTaskOf resp p]⟩ := rfl
    rw [hstep, ih]
    simp only [List.map_cons, List.sum_cons, List.append_assoc,
      List.singleton_append, RunResults.mk.injEq]
    refine ⟨by omega, by omega, trivial⟩

theorem run_evaluation_eq (resp : Nat → Nat → List Char → ModelOutcome)
    (files : List (List Char × Task)) (num_tasks : Option Nat) :
    run_evaluation resp files num_tasks =
      ⟨((selectFiles num_tasks files).enum.map (fun p => (runTaskOf resp p).correct)).sum,
       ((selectFiles num_tasks files).enum.map (fun p => (runTaskOf resp p).total)).sum,
       (selectFiles num_tasks files).enum.map (runTaskOf resp)⟩ := by
  unfold run_evaluation
  rw [foldl_runStep]
  simp

/-- Claim C6: count coherence — the run's `correct` and `total` are the
sums of the per-task fields over the accumulated task results (zero
tasks included), `correct ≤ total` holds per task and for the run, and
each task result's `total` equals the number of test cases its task
declares. -/
theorem run_counts_coherent (resp : Nat → Nat → List Char → ModelOutcome)
    (files : List (List Char × Task)) (num_tasks : Option Nat) :
    (run_evaluation resp files num_tasks).correct
        = ((run_evaluation resp files num_tasks).tasks.map TaskResult.correct).sum ∧
    (run_evaluation resp files num_tasks).total
        = ((run_evaluation resp files num_tasks).tasks.map TaskResult.total).sum ∧
    (∀ tr ∈ (run_evaluation resp files num_tasks).tasks, tr.correct ≤ tr.total) ∧
    (run_evaluation resp files num_tasks).correct
        ≤ (run_evaluation resp files num_tasks).total ∧
    (run_evaluation resp files num_tasks).tasks.map TaskResult.total
        = (selectFiles num_tasks files).map (fun f => f.2.test.length) := by
  rw [run_evaluation_eq]
  refine ⟨?_, ?_, ?_, ?_, ?_⟩
  · rw [List.map_map]; rfl
  · rw [List.map_map]; rfl
  · intro tr htr
    obtain ⟨p, hp, rfl⟩ := List.mem_map.mp htr
    exact runTask_correct_le (resp p.1) p.2.1 p.2.2
  · apply List.sum_le_sum
    intro p hp
    exact runTask_correct_le (resp p.1) p.2.1 p.2.2
  · rw [List.map_map]
    have h1 : ∀ p ∈ (selectFiles num_tasks files).enum,
        (TaskResult.total ∘ runTaskOf resp) p = p.2.2.test.length := by
      intro p hp
      show (runTask (resp p.1) p.2.1 p.2.2).total = p.2.2.test.length
      rw [runTask_eq]
    rw [List.map_congr_left h1]
    have h2 : (selectFiles num_tasks files).enum.map (fun p => p.2.2.test.length)
        = ((selectFiles num_tasks files).enum.map Prod.snd).map
            (fun f => f.2.test.length) := by
      rw [List.map_map]
      rfl
    rw [h2, List.enum_map_snd]

/-- Claim C10: with `num_tasks = n ≥ 1` the run processes exactly the
first `min n (number of files)` discovered files in order, while with
`num_tasks = 0` or `None` (both falsy in Python) it processes all
discovered files — a cap of zero does not limit the run to zero
tasks. -/
theorem num_tasks_cap (resp : Nat → Nat → List Char → ModelOutcome)
    (files : List (List Char × Task)) (n : Nat) (h : 1 ≤ n) :
    (run_evaluation resp files (some n)).tasks
        = (files.take n).enum.map (fun p => runTask (resp p.1) p.2.1 p.2.2) ∧
    (files.take n).length = min n files.length ∧
    (run_evaluation resp files (some 0)).tasks
        = files.enum.map (fun p => runTask (resp p.1) p.2.1 p.2.2) ∧
    (run_evaluation resp files none).tasks
        = files.enum.map (fun p => runTask (resp p.1) p.2.1 p.2.2) := by
  have hn : n ≠ 0 := by omega
  refine ⟨?_, List.length_take n files, ?_, ?_⟩
  · rw [run_evaluation_eq]
    show (selectFiles (some n) files).enum.map (runTaskOf resp) = _
    simp only [selectFiles, hn, ne_eq, not_false_eq_true, if_pos]
    rfl
  · rw [run_evaluation_eq]
    show (selectFiles (some 0) files).enum.map (runTaskOf resp) = _
    simp only [selectFiles, ne_eq, not_true_eq_false, if_neg]
    rfl
  · rw [run_evaluation_eq]
    rfl

/-- Claim C10 witness: the cap statement at two discovered files with
`n = 1`. -/
theorem num_tasks_cap_witness :
    (run_evaluation respRunTimeout filesTwo (some 1)).tasks
        = (filesTwo.take 1).enum.map (fun p => runTask (respRunTimeout p.1) p.2.1 p.2.2) ∧
    (filesTwo.take 1).length = min 1 filesTwo.length ∧
    (run_evaluation respRunTimeout filesTwo (some 0)).tasks
        = filesTwo.enum.map (fun p => runTask (respRunTimeout p.1) p.2.1 p.2.2) ∧
    (run_evaluation respRunTimeout filesTwo none).tasks
        = filesTwo.enum.map (fun p => runTask (respRunTimeout p.1) p.2.1 p.2.2) :=
  num_tasks_cap respRunTimeout filesTwo 1 (by decide)


end ARCEval
